import Mathlib

/-!
Verification of the nom-json recursive-descent JSON parser (src/lib.rs).

The Rust source parses a `&str` into a `JsonNode` tree using nom 7
combinators.  We embed the parser shallowly over `List Char`:

* `&str` inputs become `Input := List Char`;
* `IResult<&str, T>` becomes `PResult T`, with `.ok rest value` for
  `Ok((rest, value))`, `.err e` for `Err(nom::Err::Error(e))` and
  `.fail e` for `Err(nom::Err::Failure(e))`;
* the nom combinators used by the source (`tag`, `take_until`,
  `multispace0`, `alt`, `delimited`, `separated_pair`,
  `separated_list0`, `double`) are modelled from their nom 7 semantics;
* `f64` is abstracted to `NumVal`: a finite value is kept as the exact
  rational denoted by the matched decimal text (`decVal m e = m * 10^e`),
  so every equality between parsed values proved here is preserved by the
  correctly-rounded decimal-to-double conversion the Rust code performs;
  the `nan` / `inf` literals accepted by nom's `double` become markers;
* the recursion `parse_json ↔ parse_object/parse_array` is driven by a
  fuel parameter; running out of fuel yields the unrecoverable
  `.fail ⟨_, .fuel⟩`, which every combinator propagates, so any `.ok` or
  `.err` result of the model is a faithful result of the code.
-/

abbrev Input := List Char

inductive ErrKind where
  | tag
  | takeUntil
  | float
  | digit
  | sepList
  | fuel
deriving DecidableEq

structure PError where
  input : Input
  kind : ErrKind
deriving DecidableEq

/-- Result of a nom parser: `ok rest value`, recoverable `err`, or
unrecoverable `fail` (nom's `Err::Failure`). -/
inductive PResult (α : Type) where
  | ok : Input → α → PResult α
  | err : PError → PResult α
  | fail : PError → PResult α

/-- `Ok(..)` outcome? -/
def okB {α : Type} : PResult α → Bool
  | .ok _ _ => true
  | _ => false

/-- Recoverable `Err::Error(..)` outcome? -/
def errB {α : Type} : PResult α → Bool
  | .err _ => true
  | _ => false

/-- Any failing outcome (`Err::Error` or `Err::Failure`)? -/
def badB {α : Type} : PResult α → Bool
  | .ok _ _ => false
  | _ => true

/-- The value of a JSON number.  The Rust code stores an `f64`; we keep the
exact rational value of the matched text (see module doc) plus markers for
the `nan` / `inf` exceptional literals accepted by nom's `double`. -/
inductive NumVal where
  | fin : ℚ → NumVal
  | nan : NumVal
  | inf : NumVal
  | neginf : NumVal

/-- `JsonNode` from src/lib.rs.  `Object` keeps the `IndexMap` as its
underlying insertion-ordered association list. -/
inductive JsonNode where
  | object : List (Input × JsonNode) → JsonNode
  | array : List JsonNode → JsonNode
  | string : Input → JsonNode
  | number : NumVal → JsonNode
  | boolean : Bool → JsonNode
  | null : JsonNode

instance : Inhabited JsonNode := ⟨JsonNode.null⟩

instance : Inhabited NumVal := ⟨NumVal.nan⟩

/-- nom `tag` (complete): exact prefix match, returning the matched slice. -/
def tagP (t : Input) (i : Input) : PResult Input :=
  if t.isPrefixOf i then .ok (i.drop t.length) t else .err ⟨i, .tag⟩

/-- nom `tag_no_case` (complete), character case folded as for ASCII. -/
def tagNoCase (t : Input) (i : Input) : PResult Input :=
  if (i.take t.length).map Char.toLower = t.map Char.toLower ∧ t.length ≤ i.length then
    .ok (i.drop t.length) (i.take t.length)
  else .err ⟨i, .tag⟩

/-- Index of the first occurrence of the pattern `pat` in `i`, if any. -/
def findSub (pat : Input) : Input → Option Nat
  | [] => if pat = [] then some 0 else none
  | c :: rest =>
    if pat.isPrefixOf (c :: rest) then some 0
    else (findSub pat rest).map (· + 1)

/-- nom `take_until` (complete): consume up to (not including) the first
occurrence of `pat`; error if `pat` does not occur. -/
def takeUntilP (pat : Input) (i : Input) : PResult Input :=
  match findSub pat i with
  | some n => .ok (i.drop n) (i.take n)
  | none => .err ⟨i, .takeUntil⟩

/-- Whitespace recognized by nom `multispace0`. -/
def isSpaceChar (c : Char) : Bool :=
  c == ' ' || c == '\t' || c == '\r' || c == '\n'

/-- nom `multispace0`: drop leading whitespace (never fails, so we return
the remainder directly). -/
def multispace0 (i : Input) : Input :=
  i.dropWhile isSpaceChar

/-- `parse_string_inner` from src/lib.rs:
`delimited(tag("\""), take_until("\""), tag("\""))`. -/
def parse_string_inner (i : Input) : PResult Input :=
  match tagP ['"'] i with
  | .err e => .err e
  | .fail e => .fail e
  | .ok i1 _ =>
    match takeUntilP ['"'] i1 with
    | .err e => .err e
    | .fail e => .fail e
    | .ok i2 content =>
      match tagP ['"'] i2 with
      | .err e => .err e
      | .fail e => .fail e
      | .ok i3 _ => .ok i3 content

/-- `parse_string` from src/lib.rs: wrap the raw literal in a node. -/
def parse_string (i : Input) : PResult JsonNode :=
  match parse_string_inner i with
  | .ok r s => .ok r (.string s)
  | .err e => .err e
  | .fail e => .fail e

/-- `parse_boolean` from src/lib.rs:
`alt((value(true, tag("true")), value(false, tag("false"))))`. -/
def parse_boolean (i : Input) : PResult JsonNode :=
  match tagP ("true".toList) i with
  | .ok r _ => .ok r (.boolean true)
  | .fail e => .fail e
  | .err _ =>
    match tagP ("false".toList) i with
    | .ok r _ => .ok r (.boolean false)
    | .fail e => .fail e
    | .err e => .err e

/-- `parse_null` from src/lib.rs: `value(JsonNode::Null, tag("null"))`. -/
def parse_null (i : Input) : PResult JsonNode :=
  match tagP ("null".toList) i with
  | .ok r _ => .ok r .null
  | .err e => .err e
  | .fail e => .fail e

/-- Number of leading ASCII digits. -/
def digitSpan (i : Input) : Nat :=
  (i.takeWhile Char.isDigit).length

/-- The remainder of the input after nom `recognize_float`'s optional sign. -/
def afterSign (i : Input) : Input :=
  match i with
  | c :: rest => if c = '+' ∨ c = '-' then rest else i
  | [] => i

/-- Remainder after the mantissa of nom `recognize_float`:
`alt((digit1 ~ opt('.' ~ opt(digit1)), '.' ~ digit1))`. -/
def mantissaEnd (i1 : Input) : PResult Input :=
  if digitSpan i1 ≠ 0 then
    match i1.drop (digitSpan i1) with
    | '.' :: i3 => .ok (i3.drop (digitSpan i3)) []
    | i2 => .ok i2 []
  else
    match i1 with
    | '.' :: i3 => if digitSpan i3 ≠ 0 then .ok (i3.drop (digitSpan i3)) [] else .err ⟨i1, .digit⟩
    | _ => .err ⟨i1, .digit⟩

/-- Remainder after the exponent of nom `recognize_float`:
`opt(e/E ~ opt(sign) ~ cut(digit1))`.  The `cut` turns a missing exponent
digit into an unrecoverable failure. -/
def expEnd (i2 : Input) : PResult Input :=
  match i2 with
  | c :: i3 =>
    if c = 'e' ∨ c = 'E' then
      let i4 := afterSign i3
      if digitSpan i4 ≠ 0 then .ok (i4.drop (digitSpan i4)) [] else .fail ⟨i4, .digit⟩
    else .ok i2 []
  | [] => .ok i2 []

/-- nom `recognize_float`: returns the matched slice and the remainder. -/
def recognizeFloat (i : Input) : PResult Input :=
  match mantissaEnd (afterSign i) with
  | .err e => .err e
  | .fail e => .fail e
  | .ok i2 _ =>
    match expEnd i2 with
    | .err e => .err e
    | .fail e => .fail e
    | .ok i3 _ => .ok i3 (i.take (i.length - i3.length))

/-- nom `recognize_float_or_exceptions`: `recognize_float` or one of the
case-insensitive literals `nan`, `infinity`, `inf`; every branch rewrites
its error to `ErrorKind::Float` at the branch's input. -/
def recognizeFloatOrExceptions (i : Input) : PResult Input :=
  match recognizeFloat i with
  | .ok r s => .ok r s
  | .fail _ => .fail ⟨i, .float⟩
  | .err _ =>
    match tagNoCase ("nan".toList) i with
    | .ok r s => .ok r s
    | _ =>
      match tagNoCase ("infinity".toList) i with
      | .ok r s => .ok r s
      | _ =>
        match tagNoCase ("inf".toList) i with
        | .ok r s => .ok r s
        | _ => .err ⟨i, .float⟩

/-- Numeric value of a digit string. -/
def digitsNat (l : Input) : Nat :=
  l.foldl (fun a c => a * 10 + (c.toNat - 48)) 0

/-- Exact rational value `m * 10^e` of a decimal with mantissa `m` and
decimal exponent `e`.  This is the value the matched text denotes; the Rust
code stores its correctly rounded `f64`, so equalities between `decVal`
results transport to the `f64` level. -/
def decVal (m : ℤ) (e : ℤ) : ℚ :=
  (m : ℚ) * (10 : ℚ) ^ e

/-- Case-insensitive comparison with a lowercase literal. -/
def lowerIs (s : Input) (t : Input) : Bool :=
  s.map Char.toLower == t

/-- Rust `str::parse::<f64>` (the `ParseTo` nom uses), restricted to the
shapes `recognize_float_or_exceptions` can produce, with the value kept
exact (see `decVal`). -/
def parseF64 (s : Input) : Option NumVal :=
  let neg : Bool := match s with | '-' :: _ => true | _ => false
  let s1 : Input := afterSign s
  if lowerIs s1 ("inf".toList) ∨ lowerIs s1 ("infinity".toList) then
    some (if neg then .neginf else .inf)
  else if lowerIs s1 ("nan".toList) then some .nan
  else
    let ip := s1.takeWhile Char.isDigit
    let s2 := s1.drop ip.length
    let fp : Input := match s2 with | '.' :: r => r.takeWhile Char.isDigit | _ => []
    let s3 : Input := match s2 with | '.' :: r => r.drop fp.length | _ => s2
    if ip.length = 0 ∧ fp.length = 0 then none
    else
      let m : ℤ := if neg then -(digitsNat (ip ++ fp) : ℤ) else (digitsNat (ip ++ fp) : ℤ)
      match s3 with
      | [] => some (.fin (decVal m (-(fp.length : ℤ))))
      | c :: r =>
        if c = 'e' ∨ c = 'E' then
          let eneg : Bool := match r with | '-' :: _ => true | _ => false
          let r1 := afterSign r
          let es := r1.takeWhile Char.isDigit
          if es.length = 0 ∨ (r1.drop es.length).length ≠ 0 then none
          else
            let ev : ℤ := if eneg then -(digitsNat es : ℤ) else (digitsNat es : ℤ)
            some (.fin (decVal m (ev - (fp.length : ℤ))))
        else none

/-- nom `double` (complete, for `&str`): recognize, then convert via
`parse_to`. -/
def double (i : Input) : PResult NumVal :=
  match recognizeFloatOrExceptions i with
  | .err e => .err e
  | .fail e => .fail e
  | .ok rest s =>
    match parseF64 s with
    | some v => .ok rest v
    | none => .err ⟨rest, .float⟩

/-- `parse_number` from src/lib.rs: `map(double, JsonNode::Number)`. -/
def parse_number (i : Input) : PResult JsonNode :=
  match double i with
  | .ok r v => .ok r (.number v)
  | .err e => .err e
  | .fail e => .fail e

/-- The separator of `parse_object`'s entry list: `tag(",")`. -/
def objSep (i : Input) : PResult Input :=
  tagP [','] i

/-- The separator of `parse_array`'s element list:
`delimited(multispace0, tag(","), multispace0)`. -/
def arrSep (i : Input) : PResult Input :=
  match tagP [','] (multispace0 i) with
  | .ok i2 t => .ok (multispace0 i2) t
  | .err e => .err e
  | .fail e => .fail e

/-- One key-value entry of `parse_object`:
`separated_pair(delimited(multispace0, parse_string_inner, multispace0),
tag(":"), delimited(multispace0, parse_json, multispace0))`. -/
def entryP (pj : Input → PResult JsonNode) (i : Input) : PResult (Input × JsonNode) :=
  match parse_string_inner (multispace0 i) with
  | .err e => .err e
  | .fail e => .fail e
  | .ok i2 k =>
    match tagP [':'] (multispace0 i2) with
    | .err e => .err e
    | .fail e => .fail e
    | .ok i4 _ =>
      match pj (multispace0 i4) with
      | .err e => .err e
      | .fail e => .fail e
      | .ok i6 v => .ok (multispace0 i6) (k, v)

/-- Loop of nom `separated_list0` after the first element: `acc` holds the
elements parsed so far, `i` the remainder after the last element.  The
loop's own fuel only bounds the iteration count; exhaustion is the
unrecoverable `.fail ⟨_, .fuel⟩` (unreachable at the fuel the callers
supply, since every iteration consumes at least the separator). -/
def sepListLoop {α γ : Type} (sep : Input → PResult γ) (elem : Input → PResult α) :
    Nat → Input → List α → PResult (List α)
  | 0, i, _ => .fail ⟨i, .fuel⟩
  | f + 1, i, acc =>
    match sep i with
    | .err _ => .ok i acc
    | .fail e => .fail e
    | .ok i1 _ =>
      if i1.length = i.length then .err ⟨i1, .sepList⟩
      else
        match elem i1 with
        | .err _ => .ok i acc
        | .fail e => .fail e
        | .ok i2 v => sepListLoop sep elem f i2 (acc ++ [v])

/-- nom `separated_list0`: zero or more `elem`s separated by `sep`.  On a
recoverable element or separator error the list stops *before* the last
separator match; unrecoverable failures propagate. -/
def sepList0 {α γ : Type} (sep : Input → PResult γ) (elem : Input → PResult α)
    (i : Input) : PResult (List α) :=
  match elem i with
  | .err _ => .ok i []
  | .fail e => .fail e
  | .ok i1 v => sepListLoop sep elem (i1.length + 1) i1 [v]

/-- `IndexMap::insert`: a new key is appended, an existing key keeps its
position and has its value overwritten. -/
def indexInsert (m : List (Input × JsonNode)) (k : Input) (v : JsonNode) :
    List (Input × JsonNode) :=
  if m.any (fun p => p.1 = k) then
    m.map (fun p => if p.1 = k then (k, v) else p)
  else m ++ [(k, v)]

/-- `Vec<(K, V)>::into_iter().collect::<IndexMap<K, V>>()`: left-to-right
insertion into an empty `IndexMap`. -/
def indexMapCollect (l : List (Input × JsonNode)) : List (Input × JsonNode) :=
  l.foldl (fun m kv => indexInsert m kv.1 kv.2) []

/-- Body of `parse_object` from src/lib.rs, with the recursive call to
`parse_json` abstracted as `pj`:
`delimited(tag("{"), separated_list0(tag(","), entry), tag("}"))` mapped
through the `IndexMap` collection. -/
def objectBody (pj : Input → PResult JsonNode) (i : Input) : PResult JsonNode :=
  match tagP ['\x7b'] i with
  | .err e => .err e
  | .fail e => .fail e
  | .ok i1 _ =>
    match sepList0 objSep (entryP pj) i1 with
    | .err e => .err e
    | .fail e => .fail e
    | .ok i2 entries =>
      match tagP ['\x7d'] i2 with
      | .err e => .err e
      | .fail e => .fail e
      | .ok i3 _ => .ok i3 (.object (indexMapCollect entries))

/-- Body of `parse_array` from src/lib.rs, with the recursive call to
`parse_json` abstracted as `pj`:
`delimited(tag("["), separated_list0(ws-comma-ws, parse_json), tag("]"))`. -/
def arrayBody (pj : Input → PResult JsonNode) (i : Input) : PResult JsonNode :=
  match tagP ['['] i with
  | .err e => .err e
  | .fail e => .fail e
  | .ok i1 _ =>
    match sepList0 arrSep pj i1 with
    | .err e => .err e
    | .fail e => .fail e
    | .ok i2 elems =>
      match tagP [']'] i2 with
      | .err e => .err e
      | .fail e => .fail e
      | .ok i3 _ => .ok i3 (.array elems)

/-- `parse_json` from src/lib.rs, fuel-indexed:
`alt((parse_object, parse_array, parse_number, parse_string,
parse_boolean, parse_null))`.  nom's `alt` moves to the next alternative
on a recoverable error, returns any other outcome as is, and on total
mismatch keeps the last alternative's error (the built-in error type's
`append` discards the accumulator).  Fuel decreases at each recursive
descent into `parse_json`; exhaustion is the unrecoverable
`.fail ⟨_, .fuel⟩`. -/
def parseJsonF : Nat → Input → PResult JsonNode
  | 0, i => .fail ⟨i, .fuel⟩
  | f + 1, i =>
    match objectBody (fun j => parseJsonF f j) i with
    | .ok r v => .ok r v
    | .fail e => .fail e
    | .err _ =>
      match arrayBody (fun j => parseJsonF f j) i with
      | .ok r v => .ok r v
      | .fail e => .fail e
      | .err _ =>
        match parse_number i with
        | .ok r v => .ok r v
        | .fail e => .fail e
        | .err _ =>
          match parse_string i with
          | .ok r v => .ok r v
          | .fail e => .fail e
          | .err _ =>
            match parse_boolean i with
            | .ok r v => .ok r v
            | .fail e => .fail e
            | .err _ => parse_null i

/-- `parse_json` on a complete input: the fuel `i.length + 1` dominates the
nesting depth, which grows only after consuming an opening bracket. -/
def parse_json (i : Input) : PResult JsonNode :=
  parseJsonF (i.length + 1) i

/-- `parse_object` from src/lib.rs (its recursive `parse_json` calls carry
the fuel `parse_json` itself would hand it on input `i`). -/
def parse_object (i : Input) : PResult JsonNode :=
  objectBody (fun j => parseJsonF i.length j) i

/-- `parse_array` from src/lib.rs (same fuel convention as
`parse_object`). -/
def parse_array (i : Input) : PResult JsonNode :=
  arrayBody (fun j => parseJsonF i.length j) i


/-- `IndexMap::get` on the model: the value stored under `k`, scanning the
insertion-ordered entries. -/
def assocLookup (m : List (Input × JsonNode)) (k : Input) : Option JsonNode :=
  match m with
  | [] => none
  | p :: rest => if p.1 = k then some p.2 else assocLookup rest k

/-- Spec-side: the value of the *last* occurrence of key `k` in the raw
entry list, if any. -/
def lastVal (l : List (Input × JsonNode)) (k : Input) : Option JsonNode :=
  match l with
  | [] => none
  | (k1, v) :: rest =>
    match lastVal rest k with
    | some w => some w
    | none => if k1 = k then some v else none

/-- Spec-side: key sequence in order of *first* occurrence. -/
def firstOccFrom (acc : List Input) (ks : List Input) : List Input :=
  ks.foldl (fun a k => if k ∈ a then a else a ++ [k]) acc

/-- Spec-side: key sequence of a raw entry list, in order of first
occurrence. -/
def firstOccKeys (ks : List Input) : List Input :=
  firstOccFrom [] ks

/-! ### Basic facts about the dispatcher and the productions' first characters -/

/-- `parse_json` unfolds (definitionally) to nom's `alt` cascade over the six
productions, in source order. -/
theorem parse_json_eq (i : Input) : parse_json i =
    (match parse_object i with
     | .ok r v => .ok r v
     | .fail e => .fail e
     | .err _ =>
       match parse_array i with
       | .ok r v => .ok r v
       | .fail e => .fail e
       | .err _ =>
         match parse_number i with
         | .ok r v => .ok r v
         | .fail e => .fail e
         | .err _ =>
           match parse_string i with
           | .ok r v => .ok r v
           | .fail e => .fail e
           | .err _ =>
             match parse_boolean i with
             | .ok r v => .ok r v
             | .fail e => .fail e
             | .err _ => parse_null i) := rfl

theorem single_isPrefixOf_cons (p c : Char) (t : Input) :
    ([p].isPrefixOf (c :: t)) = (p == c) := by
  simp [List.isPrefixOf]

theorem objectBody_err (pj : Input → PResult JsonNode) (i : Input)
    (h : ['\x7b'].isPrefixOf i = false) : objectBody pj i = .err ⟨i, .tag⟩ := by
  unfold objectBody tagP
  simp [h]

theorem arrayBody_err (pj : Input → PResult JsonNode) (i : Input)
    (h : (['['].isPrefixOf i) = false) : arrayBody pj i = .err ⟨i, .tag⟩ := by
  unfold arrayBody tagP
  simp [h]

theorem parse_string_inner_err_head (i : Input)
    (h : (['"'].isPrefixOf i) = false) : parse_string_inner i = .err ⟨i, .tag⟩ := by
  unfold parse_string_inner tagP
  simp [h]

theorem parse_string_err_head (i : Input)
    (h : (['"'].isPrefixOf i) = false) : parse_string i = .err ⟨i, .tag⟩ := by
  unfold parse_string
  rw [parse_string_inner_err_head i h]

theorem parse_boolean_err_head (i : Input)
    (h1 : ¬ ("true".toList <+: i))
    (h2 : ¬ ("false".toList <+: i)) :
    parse_boolean i = .err ⟨i, .tag⟩ := by
  unfold parse_boolean tagP
  rw [if_neg (by simpa using h1), if_neg (by simpa using h2)]

theorem parse_null_err_head (i : Input)
    (h : ¬ ("null".toList <+: i)) : parse_null i = .err ⟨i, .tag⟩ := by
  unfold parse_null tagP
  rw [if_neg (by simpa using h)]

theorem mantissaEnd_err_head (c : Char) (t : Input)
    (h3 : c ≠ '.') (h4 : c.isDigit = false) :
    mantissaEnd (c :: t) = .err ⟨c :: t, .digit⟩ := by
  have hspan : digitSpan (c :: t) = 0 := by
    unfold digitSpan
    simp [List.takeWhile_cons, h4]
  unfold mantissaEnd
  rw [hspan]
  simp only [ne_eq, not_true_eq_false, if_false]
  split
  · rename_i i3 heq
    injection heq with hc _
    exact absurd hc h3
  · rfl

theorem tagNoCase_err_head (p : Char) (ps : Input) (c : Char) (t : Input)
    (h : c.toLower ≠ p.toLower) :
    tagNoCase (p :: ps) (c :: t) = .err ⟨c :: t, .tag⟩ := by
  unfold tagNoCase
  rw [if_neg]
  rintro ⟨heq, -⟩
  rw [List.length_cons, List.take_succ_cons, List.map_cons, List.map_cons] at heq
  exact h (List.cons.injEq .. ▸ heq).1

theorem tagNoCase_err_head2 (p1 p2 : Char) (ps : Input) (c1 c2 : Char) (t : Input)
    (h : c2.toLower ≠ p2.toLower) :
    tagNoCase (p1 :: p2 :: ps) (c1 :: c2 :: t) = .err ⟨c1 :: c2 :: t, .tag⟩ := by
  unfold tagNoCase
  rw [if_neg]
  rintro ⟨heq, -⟩
  rw [List.length_cons, List.length_cons, List.take_succ_cons, List.take_succ_cons,
    List.map_cons, List.map_cons, List.map_cons, List.map_cons] at heq
  exact h (List.cons.injEq .. ▸ (List.cons.injEq .. ▸ heq).2).1

/-- A first character that is not a sign, digit, dot, `n`/`N` or `i`/`I`
makes nom's `double` fail with a recoverable `Float` error. -/
theorem parse_number_err_head (c : Char) (t : Input)
    (h1 : c ≠ '+') (h2 : c ≠ '-') (h3 : c ≠ '.') (h4 : c.isDigit = false)
    (h5 : c.toLower ≠ 'n') (h6 : c.toLower ≠ 'i') :
    parse_number (c :: t) = .err ⟨c :: t, .float⟩ := by
  have hsign : afterSign (c :: t) = c :: t := by
    unfold afterSign
    simp [h1, h2]
  have hrf : recognizeFloat (c :: t) = .err ⟨c :: t, .digit⟩ := by
    unfold recognizeFloat
    rw [hsign, mantissaEnd_err_head c t h3 h4]
  have h5' : c.toLower ≠ 'n'.toLower := by simpa using h5
  have h6' : c.toLower ≠ 'i'.toLower := by simpa using h6
  unfold parse_number double recognizeFloatOrExceptions
  rw [hrf]
  rw [show ("nan".toList) = 'n' :: 'a' :: 'n' :: [] from rfl,
    show ("infinity".toList) = 'i' :: "nfinity".toList from rfl,
    show ("inf".toList) = 'i' :: "nf".toList from rfl,
    tagNoCase_err_head 'n' _ c t h5', tagNoCase_err_head 'i' _ c t h6',
    tagNoCase_err_head 'i' _ c t h6']

/-- An input beginning `nu` (in particular the `null` literal) is rejected
by nom's `double`. -/
theorem parse_number_err_nu (t : Input) :
    parse_number ('n' :: 'u' :: t) = .err ⟨'n' :: 'u' :: t, .float⟩ := by
  have hsign : afterSign ('n' :: 'u' :: t) = 'n' :: 'u' :: t := by
    unfold afterSign
    simp
  have hrf : recognizeFloat ('n' :: 'u' :: t) = .err ⟨'n' :: 'u' :: t, .digit⟩ := by
    unfold recognizeFloat
    rw [hsign, mantissaEnd_err_head _ _ (by decide) (by decide)]
  unfold parse_number double recognizeFloatOrExceptions
  rw [hrf]
  rw [show ("nan".toList) = 'n' :: 'a' :: 'n' :: [] from rfl,
    show ("infinity".toList) = 'i' :: "nfinity".toList from rfl,
    show ("inf".toList) = 'i' :: "nf".toList from rfl,
    tagNoCase_err_head2 'n' 'a' _ 'n' 'u' t (by decide),
    tagNoCase_err_head 'i' _ 'n' _ (by decide),
    tagNoCase_err_head 'i' _ 'n' _ (by decide)]

theorem head_clash {c d : Char} {l1 l2 : Input} (h : c :: l1 = d :: l2) : c = d :=
  (List.cons.injEq .. ▸ h).1

theorem parse_number_nil : parse_number [] = .err ⟨[], .float⟩ := rfl

theorem objectBody_ok_head (pj : Input → PResult JsonNode) (i : Input)
    (h : okB (objectBody pj i) = true) : ∃ t, i = '\x7b' :: t := by
  match i with
  | [] =>
    rw [objectBody_err pj [] rfl] at h
    simp [okB] at h
  | c :: t =>
    by_cases hc : c = '\x7b'
    · exact ⟨t, by rw [hc]⟩
    · rw [objectBody_err pj (c :: t)
        (by rw [single_isPrefixOf_cons]; exact beq_eq_false_iff_ne.mpr (Ne.symm hc))] at h
      simp [okB] at h

theorem arrayBody_ok_head (pj : Input → PResult JsonNode) (i : Input)
    (h : okB (arrayBody pj i) = true) : ∃ t, i = '[' :: t := by
  match i with
  | [] =>
    rw [arrayBody_err pj [] rfl] at h
    simp [okB] at h
  | c :: t =>
    by_cases hc : c = '['
    · exact ⟨t, by rw [hc]⟩
    · rw [arrayBody_err pj (c :: t)
        (by rw [single_isPrefixOf_cons]; exact beq_eq_false_iff_ne.mpr (Ne.symm hc))] at h
      simp [okB] at h

theorem parse_string_inner_ok_head (i : Input)
    (h : okB (parse_string_inner i) = true) : ∃ t, i = '"' :: t := by
  match i with
  | [] =>
    rw [parse_string_inner_err_head [] rfl] at h
    simp [okB] at h
  | c :: t =>
    by_cases hc : c = '"'
    · exact ⟨t, by rw [hc]⟩
    · rw [parse_string_inner_err_head (c :: t)
        (by rw [single_isPrefixOf_cons]; exact beq_eq_false_iff_ne.mpr (Ne.symm hc))] at h
      simp [okB] at h

theorem parse_string_ok_head (i : Input)
    (h : okB (parse_string i) = true) : ∃ t, i = '"' :: t := by
  apply parse_string_inner_ok_head
  unfold parse_string at h
  cases hsi : parse_string_inner i <;> rw [hsi] at h <;> simp [okB] at h ⊢

theorem parse_boolean_ok_head (i : Input) (h : okB (parse_boolean i) = true) :
    ("true".toList <+: i) ∨ ("false".toList <+: i) := by
  by_cases h1 : "true".toList <+: i
  · exact Or.inl h1
  by_cases h2 : "false".toList <+: i
  · exact Or.inr h2
  rw [parse_boolean_err_head i h1 h2] at h
  simp [okB] at h

theorem parse_null_ok_head (i : Input) (h : okB (parse_null i) = true) :
    ∃ t, i = 'n' :: 'u' :: 'l' :: 'l' :: t := by
  by_cases h1 : "null".toList <+: i
  · obtain ⟨t, ht⟩ := h1
    exact ⟨t, ht.symm⟩
  · rw [parse_null_err_head i h1] at h
    simp [okB] at h

/-- The set of first characters after which nom's `double` can succeed:
sign, digit, dot, or the start of a `nan` / `inf` literal. -/
def numHead (c : Char) : Prop :=
  c = '+' ∨ c = '-' ∨ c = '.' ∨ c.isDigit = true ∨ c.toLower = 'n' ∨ c.toLower = 'i'

theorem parse_number_ok_head (i : Input) (h : okB (parse_number i) = true) :
    ∃ c t, i = c :: t ∧ numHead c := by
  match i with
  | [] =>
    rw [parse_number_nil] at h
    simp [okB] at h
  | c :: t =>
    refine ⟨c, t, rfl, ?_⟩
    by_cases h1 : c = '+'
    · exact Or.inl h1
    by_cases h2 : c = '-'
    · exact Or.inr (Or.inl h2)
    by_cases h3 : c = '.'
    · exact Or.inr (Or.inr (Or.inl h3))
    by_cases h4 : c.isDigit = true
    · exact Or.inr (Or.inr (Or.inr (Or.inl h4)))
    by_cases h5 : c.toLower = 'n'
    · exact Or.inr (Or.inr (Or.inr (Or.inr (Or.inl h5))))
    by_cases h6 : c.toLower = 'i'
    · exact Or.inr (Or.inr (Or.inr (Or.inr (Or.inr h6))))
    rw [parse_number_err_head c t h1 h2 h3 (Bool.not_eq_true _ ▸ h4) h5 h6] at h
    simp [okB] at h

theorem numHead_not_struct (c : Char) (h : numHead c) :
    c ≠ '\x7b' ∧ c ≠ '[' ∧ c ≠ '"' ∧ c ≠ 't' ∧ c ≠ 'f' := by
  rcases h with rfl | rfl | rfl | hd | hl | hl
  · exact ⟨by decide, by decide, by decide, by decide, by decide⟩
  · exact ⟨by decide, by decide, by decide, by decide, by decide⟩
  · exact ⟨by decide, by decide, by decide, by decide, by decide⟩
  · refine ⟨?_, ?_, ?_, ?_, ?_⟩ <;> intro hc <;> rw [hc] at hd <;> exact absurd hd (by decide)
  · refine ⟨?_, ?_, ?_, ?_, ?_⟩ <;> intro hc <;> rw [hc] at hl <;> exact absurd hl (by decide)
  · refine ⟨?_, ?_, ?_, ?_, ?_⟩ <;> intro hc <;> rw [hc] at hl <;> exact absurd hl (by decide)

theorem not_lit_prefix_cons {p : Char} {ps : Input} (c : Char) (t : Input) (hc : c ≠ p) :
    ¬ ((p :: ps) <+: (c :: t)) := by
  rintro ⟨r, heq⟩
  rw [List.cons_append] at heq
  exact hc (head_clash heq).symm

theorem parse_boolean_ok_head2 (i : Input) (h : okB (parse_boolean i) = true) :
    (∃ t, i = 't' :: t) ∨ (∃ t, i = 'f' :: t) := by
  rcases parse_boolean_ok_head i h with ⟨r, hr⟩ | ⟨r, hr⟩
  · exact Or.inl ⟨'r' :: 'u' :: 'e' :: r, hr.symm⟩
  · exact Or.inr ⟨'a' :: 'l' :: 's' :: 'e' :: r, hr.symm⟩

theorem parse_object_err_cons (c : Char) (t : Input) (hc : c ≠ '\x7b') :
    parse_object (c :: t) = .err ⟨c :: t, .tag⟩ :=
  objectBody_err _ _ (by rw [single_isPrefixOf_cons]; exact beq_eq_false_iff_ne.mpr (Ne.symm hc))

theorem parse_array_err_cons (c : Char) (t : Input) (hc : c ≠ '[') :
    parse_array (c :: t) = .err ⟨c :: t, .tag⟩ :=
  arrayBody_err _ _ (by rw [single_isPrefixOf_cons]; exact beq_eq_false_iff_ne.mpr (Ne.symm hc))

theorem parse_string_err_cons (c : Char) (t : Input) (hc : c ≠ '"') :
    parse_string (c :: t) = .err ⟨c :: t, .tag⟩ :=
  parse_string_err_head _ (by rw [single_isPrefixOf_cons]; exact beq_eq_false_iff_ne.mpr (Ne.symm hc))

theorem parse_boolean_err_cons (c : Char) (t : Input) (h1 : c ≠ 't') (h2 : c ≠ 'f') :
    parse_boolean (c :: t) = .err ⟨c :: t, .tag⟩ := by
  apply parse_boolean_err_head
  · rw [show ("true".toList : Input) = 't' :: 'r' :: 'u' :: 'e' :: [] from rfl]
    exact not_lit_prefix_cons c t h1
  · rw [show ("false".toList : Input) = 'f' :: 'a' :: 'l' :: 's' :: 'e' :: [] from rfl]
    exact not_lit_prefix_cons c t h2

theorem parse_null_err_cons (c : Char) (t : Input) (h : c ≠ 'n') :
    parse_null (c :: t) = .err ⟨c :: t, .tag⟩ := by
  apply parse_null_err_head
  rw [show ("null".toList : Input) = 'n' :: 'u' :: 'l' :: 'l' :: [] from rfl]
  exact not_lit_prefix_cons c t h

theorem errB_exists {α : Type} {x : PResult α} (h : errB x = true) : ∃ e, x = .err e := by
  cases x with
  | ok r v => simp [errB] at h
  | err e => exact ⟨e, rfl⟩
  | fail e => simp [errB] at h

/-- C6: the six productions are prefix-disjoint — on every input at most one
of them can succeed (pairwise, no two are simultaneously `Ok`), and whenever
some production succeeds the dispatcher returns exactly its result, so the
alternative order is not load-bearing for which value is produced.  (The
markers: `\x7b` for objects, `[` for arrays, `"` for strings, `t`/`f` for
booleans, `null` for null; a successful number starts with a sign, digit,
dot, or a `nan`/`inf` literal — see `numHead` — none of which collides with
the other five.) -/
theorem C6_productions_disjoint : ∀ i : Input,
    (¬ (okB (parse_object i) = true ∧ okB (parse_array i) = true)) ∧
    (¬ (okB (parse_object i) = true ∧ okB (parse_number i) = true)) ∧
    (¬ (okB (parse_object i) = true ∧ okB (parse_string i) = true)) ∧
    (¬ (okB (parse_object i) = true ∧ okB (parse_boolean i) = true)) ∧
    (¬ (okB (parse_object i) = true ∧ okB (parse_null i) = true)) ∧
    (¬ (okB (parse_array i) = true ∧ okB (parse_number i) = true)) ∧
    (¬ (okB (parse_array i) = true ∧ okB (parse_string i) = true)) ∧
    (¬ (okB (parse_array i) = true ∧ okB (parse_boolean i) = true)) ∧
    (¬ (okB (parse_array i) = true ∧ okB (parse_null i) = true)) ∧
    (¬ (okB (parse_number i) = true ∧ okB (parse_string i) = true)) ∧
    (¬ (okB (parse_number i) = true ∧ okB (parse_boolean i) = true)) ∧
    (¬ (okB (parse_number i) = true ∧ okB (parse_null i) = true)) ∧
    (¬ (okB (parse_string i) = true ∧ okB (parse_boolean i) = true)) ∧
    (¬ (okB (parse_string i) = true ∧ okB (parse_null i) = true)) ∧
    (¬ (okB (parse_boolean i) = true ∧ okB (parse_null i) = true)) ∧
    (∀ r v, parse_object i = .ok r v → parse_json i = .ok r v) ∧
    (∀ r v, parse_array i = .ok r v → parse_json i = .ok r v) ∧
    (∀ r v, parse_number i = .ok r v → parse_json i = .ok r v) ∧
    (∀ r v, parse_string i = .ok r v → parse_json i = .ok r v) ∧
    (∀ r v, parse_boolean i = .ok r v → parse_json i = .ok r v) ∧
    (∀ r v, parse_null i = .ok r v → parse_json i = .ok r v) := by
  intro i
  refine ⟨?_, ?_, ?_, ?_, ?_, ?_, ?_, ?_, ?_, ?_, ?_, ?_, ?_, ?_, ?_, ?_, ?_, ?_, ?_, ?_, ?_⟩
  · rintro ⟨ho, ha⟩
    obtain ⟨t, rfl⟩ := objectBody_ok_head _ _ ho
    obtain ⟨u, heq⟩ := arrayBody_ok_head _ _ ha
    exact absurd (head_clash heq) (by decide)
  · rintro ⟨ho, hn⟩
    obtain ⟨t, rfl⟩ := objectBody_ok_head _ _ ho
    rw [parse_number_err_head '\x7b' t (by decide) (by decide) (by decide) (by decide)
      (by decide) (by decide)] at hn
    simp [okB] at hn
  · rintro ⟨ho, hs⟩
    obtain ⟨t, rfl⟩ := objectBody_ok_head _ _ ho
    obtain ⟨u, heq⟩ := parse_string_ok_head _ hs
    exact absurd (head_clash heq) (by decide)
  · rintro ⟨ho, hb⟩
    obtain ⟨t, rfl⟩ := objectBody_ok_head _ _ ho
    rcases parse_boolean_ok_head2 _ hb with ⟨u, heq⟩ | ⟨u, heq⟩ <;>
      exact absurd (head_clash heq) (by decide)
  · rintro ⟨ho, hz⟩
    obtain ⟨t, rfl⟩ := objectBody_ok_head _ _ ho
    obtain ⟨u, heq⟩ := parse_null_ok_head _ hz
    exact absurd (head_clash heq) (by decide)
  · rintro ⟨ha, hn⟩
    obtain ⟨t, rfl⟩ := arrayBody_ok_head _ _ ha
    rw [parse_number_err_head '[' t (by decide) (by decide) (by decide) (by decide)
      (by decide) (by decide)] at hn
    simp [okB] at hn
  · rintro ⟨ha, hs⟩
    obtain ⟨t, rfl⟩ := arrayBody_ok_head _ _ ha
    obtain ⟨u, heq⟩ := parse_string_ok_head _ hs
    exact absurd (head_clash heq) (by decide)
  · rintro ⟨ha, hb⟩
    obtain ⟨t, rfl⟩ := arrayBody_ok_head _ _ ha
    rcases parse_boolean_ok_head2 _ hb with ⟨u, heq⟩ | ⟨u, heq⟩ <;>
      exact absurd (head_clash heq) (by decide)
  · rintro ⟨ha, hz⟩
    obtain ⟨t, rfl⟩ := arrayBody_ok_head _ _ ha
    obtain ⟨u, heq⟩ := parse_null_ok_head _ hz
    exact absurd (head_clash heq) (by decide)
  · rintro ⟨hn, hs⟩
    obtain ⟨t, rfl⟩ := parse_string_ok_head _ hs
    rw [parse_number_err_head '"' t (by decide) (by decide) (by decide) (by decide)
      (by decide) (by decide)] at hn
    simp [okB] at hn
  · rintro ⟨hn, hb⟩
    rcases parse_boolean_ok_head2 _ hb with ⟨u, rfl⟩ | ⟨u, rfl⟩
    · rw [parse_number_err_head 't' u (by decide) (by decide) (by decide) (by decide)
        (by decide) (by decide)] at hn
      simp [okB] at hn
    · rw [parse_number_err_head 'f' u (by decide) (by decide) (by decide) (by decide)
        (by decide) (by decide)] at hn
      simp [okB] at hn
  · rintro ⟨hn, hz⟩
    obtain ⟨t, rfl⟩ := parse_null_ok_head _ hz
    rw [parse_number_err_nu ('l' :: 'l' :: t)] at hn
    simp [okB] at hn
  · rintro ⟨hs, hb⟩
    obtain ⟨t, rfl⟩ := parse_string_ok_head _ hs
    rcases parse_boolean_ok_head2 _ hb with ⟨u, heq⟩ | ⟨u, heq⟩ <;>
      exact absurd (head_clash heq) (by decide)
  · rintro ⟨hs, hz⟩
    obtain ⟨t, rfl⟩ := parse_string_ok_head _ hs
    obtain ⟨u, heq⟩ := parse_null_ok_head _ hz
    exact absurd (head_clash heq) (by decide)
  · rintro ⟨hb, hz⟩
    obtain ⟨u, rfl⟩ := parse_null_ok_head _ hz
    rcases parse_boolean_ok_head2 _ hb with ⟨w, heq⟩ | ⟨w, heq⟩ <;>
      exact absurd (head_clash heq).symm (by decide)
  · intro r v h
    rw [parse_json_eq, h]
  · intro r v h
    have ha : okB (parse_array i) = true := by rw [h]; rfl
    obtain ⟨t, rfl⟩ := arrayBody_ok_head _ _ ha
    rw [parse_json_eq, parse_object_err_cons '[' t (by decide), h]
  · intro r v h
    have hn : okB (parse_number i) = true := by rw [h]; rfl
    obtain ⟨c, t, rfl, hnh⟩ := parse_number_ok_head _ hn
    obtain ⟨hc1, hc2, hc3, hc4, hc5⟩ := numHead_not_struct c hnh
    rw [parse_json_eq, parse_object_err_cons c t hc1, parse_array_err_cons c t hc2, h]
  · intro r v h
    have hs : okB (parse_string i) = true := by rw [h]; rfl
    obtain ⟨t, rfl⟩ := parse_string_ok_head _ hs
    rw [parse_json_eq, parse_object_err_cons '"' t (by decide),
      parse_array_err_cons '"' t (by decide),
      parse_number_err_head '"' t (by decide) (by decide) (by decide) (by decide)
        (by decide) (by decide), h]
  · intro r v h
    have hb : okB (parse_boolean i) = true := by rw [h]; rfl
    rcases parse_boolean_ok_head2 _ hb with ⟨u, rfl⟩ | ⟨u, rfl⟩
    · rw [parse_json_eq, parse_object_err_cons 't' u (by decide),
        parse_array_err_cons 't' u (by decide),
        parse_number_err_head 't' u (by decide) (by decide) (by decide) (by decide)
          (by decide) (by decide),
        parse_string_err_cons 't' u (by decide), h]
    · rw [parse_json_eq, parse_object_err_cons 'f' u (by decide),
        parse_array_err_cons 'f' u (by decide),
        parse_number_err_head 'f' u (by decide) (by decide) (by decide) (by decide)
          (by decide) (by decide),
        parse_string_err_cons 'f' u (by decide), h]
  · intro r v h
    have hz : okB (parse_null i) = true := by rw [h]; rfl
    obtain ⟨u, rfl⟩ := parse_null_ok_head _ hz
    rw [parse_json_eq, parse_object_err_cons 'n' _ (by decide),
      parse_array_err_cons 'n' _ (by decide),
      parse_number_err_nu ('l' :: 'l' :: u),
      parse_string_err_cons 'n' _ (by decide),
      parse_boolean_err_cons 'n' _ (by decide) (by decide), h]

/-- Witness for C6: at the concrete input `null`, the null production
succeeds and the dispatcher returns its result unchanged. -/
theorem C6_witness : parse_json ("null".toList) = .ok [] .null :=
  (C6_productions_disjoint ("null".toList)).2.2.2.2.2.2.2.2.2.2.2.2.2.2.2.2.2.2.2.2 [] .null rfl

/-- C2: the top-level dispatcher attempts the six production parsers in the
fixed order object, array, number, string, boolean, null, and returns the
result of the first production that matches a prefix of the input (each
later production is reached only after every earlier one has failed with a
recoverable error). -/
theorem C2_dispatch_order : ∀ i : Input,
    (∀ r v, parse_object i = .ok r v → parse_json i = .ok r v) ∧
    (errB (parse_object i) = true →
      ∀ r v, parse_array i = .ok r v → parse_json i = .ok r v) ∧
    (errB (parse_object i) = true → errB (parse_array i) = true →
      ∀ r v, parse_number i = .ok r v → parse_json i = .ok r v) ∧
    (errB (parse_object i) = true → errB (parse_array i) = true →
      errB (parse_number i) = true →
      ∀ r v, parse_string i = .ok r v → parse_json i = .ok r v) ∧
    (errB (parse_object i) = true → errB (parse_array i) = true →
      errB (parse_number i) = true → errB (parse_string i) = true →
      ∀ r v, parse_boolean i = .ok r v → parse_json i = .ok r v) ∧
    (errB (parse_object i) = true → errB (parse_array i) = true →
      errB (parse_number i) = true → errB (parse_string i) = true →
      errB (parse_boolean i) = true →
      ∀ r v, parse_null i = .ok r v → parse_json i = .ok r v) := by
  intro i
  refine ⟨?_, ?_, ?_, ?_, ?_, ?_⟩
  · intro r v h
    rw [parse_json_eq, h]
  · intro h1 r v h
    obtain ⟨e1, he1⟩ := errB_exists h1
    rw [parse_json_eq, he1, h]
  · intro h1 h2 r v h
    obtain ⟨e1, he1⟩ := errB_exists h1
    obtain ⟨e2, he2⟩ := errB_exists h2
    rw [parse_json_eq, he1, he2, h]
  · intro h1 h2 h3 r v h
    obtain ⟨e1, he1⟩ := errB_exists h1
    obtain ⟨e2, he2⟩ := errB_exists h2
    obtain ⟨e3, he3⟩ := errB_exists h3
    rw [parse_json_eq, he1, he2, he3, h]
  · intro h1 h2 h3 h4 r v h
    obtain ⟨e1, he1⟩ := errB_exists h1
    obtain ⟨e2, he2⟩ := errB_exists h2
    obtain ⟨e3, he3⟩ := errB_exists h3
    obtain ⟨e4, he4⟩ := errB_exists h4
    rw [parse_json_eq, he1, he2, he3, he4, h]
  · intro h1 h2 h3 h4 h5 r v h
    obtain ⟨e1, he1⟩ := errB_exists h1
    obtain ⟨e2, he2⟩ := errB_exists h2
    obtain ⟨e3, he3⟩ := errB_exists h3
    obtain ⟨e4, he4⟩ := errB_exists h4
    obtain ⟨e5, he5⟩ := errB_exists h5
    rw [parse_json_eq, he1, he2, he3, he4, he5, h]

/-- Witness for C2: at the concrete input `true`, the first five
productions before the boolean one fail recoverably and the dispatcher
returns the boolean production's result. -/
theorem C2_witness : parse_json ("true".toList) = .ok [] (.boolean true) :=
  (C2_dispatch_order ("true".toList)).2.2.2.2.1 rfl rfl rfl rfl [] (.boolean true) rfl

theorem alt_all_err : ∀ i : Input,
    errB (parse_object i) = true → errB (parse_array i) = true →
    errB (parse_number i) = true → errB (parse_string i) = true →
    errB (parse_boolean i) = true → errB (parse_null i) = true →
    parse_json i = .err ⟨i, .tag⟩ := by
  intro i h1 h2 h3 h4 h5 h6
  obtain ⟨e1, he1⟩ := errB_exists h1
  obtain ⟨e2, he2⟩ := errB_exists h2
  obtain ⟨e3, he3⟩ := errB_exists h3
  obtain ⟨e4, he4⟩ := errB_exists h4
  obtain ⟨e5, he5⟩ := errB_exists h5
  have h6' : parse_null i = .err ⟨i, .tag⟩ := by
    by_cases hp : "null".toList <+: i
    · have hok : parse_null i = .ok (i.drop 4) .null := by
        unfold parse_null tagP
        rw [if_pos ( List.isPrefixOf_iff_prefix.mpr hp)]
        rfl
      rw [hok] at h6
      simp [errB] at h6
    · exact parse_null_err_head i hp
  rw [parse_json_eq, he1, he2, he3, he4, he5, h6']

/-- C9 (amended): when all six productions fail with *recoverable* errors,
the dispatcher fails with the last production's recoverable error, which
carries the entire unconsumed input. -/
theorem C9_all_fail_error (i : Input)
    (h1 : errB (parse_object i) = true) (h2 : errB (parse_array i) = true)
    (h3 : errB (parse_number i) = true) (h4 : errB (parse_string i) = true)
    (h5 : errB (parse_boolean i) = true) (h6 : errB (parse_null i) = true) :
    parse_json i = .err ⟨i, .tag⟩ :=
  alt_all_err i h1 h2 h3 h4 h5 h6

/-- Witness for C9's amended statement: on `something`, all six productions
fail recoverably and the dispatcher's error carries the whole input. -/
theorem C9_witness : parse_json ("something".toList) = .err ⟨"something".toList, .tag⟩ :=
  C9_all_fail_error ("something".toList) rfl rfl rfl rfl rfl rfl

/-- Counterexample to C9 as stated: on `{"a": 1e}` every production fails
(the object parser with nom's unrecoverable `Failure` coming from the `cut`
in the number grammar's exponent), yet the dispatcher's outcome is that
unrecoverable failure, whose context is the suffix `1e}` where the inner
number began — not the dispatcher's unconsumed input, and not the
"no production matched" recoverable error. -/
theorem C9_counterexample :
    badB (parse_object ("\x7b\"a\": 1e\x7d".toList)) = true ∧
    badB (parse_array ("\x7b\"a\": 1e\x7d".toList)) = true ∧
    badB (parse_number ("\x7b\"a\": 1e\x7d".toList)) = true ∧
    badB (parse_string ("\x7b\"a\": 1e\x7d".toList)) = true ∧
    badB (parse_boolean ("\x7b\"a\": 1e\x7d".toList)) = true ∧
    badB (parse_null ("\x7b\"a\": 1e\x7d".toList)) = true ∧
    parse_json ("\x7b\"a\": 1e\x7d".toList) = .fail ⟨"1e\x7d".toList, .float⟩ ∧
    ("1e\x7d".toList : Input) ≠ ("\x7b\"a\": 1e\x7d".toList : Input) :=
  ⟨rfl, rfl, rfl, rfl, rfl, rfl, rfl, by decide⟩

/-- C10: no production strips leading whitespace, so an input starting with
a space, tab or newline is rejected by the dispatcher (with the last
alternative's tag error at the full input). -/
theorem C10_leading_whitespace : ∀ (c : Char) (t : Input),
    (c = ' ' ∨ c = '\t' ∨ c = '\n') → parse_json (c :: t) = .err ⟨c :: t, .tag⟩ := by
  intro c t hc
  have hws : c ≠ '\x7b' ∧ c ≠ '[' ∧ c ≠ '"' ∧ c ≠ 't' ∧ c ≠ 'f' ∧ c ≠ 'n' ∧
      c ≠ '+' ∧ c ≠ '-' ∧ c ≠ '.' ∧ c.isDigit = false ∧ c.toLower ≠ 'n' ∧ c.toLower ≠ 'i' := by
    rcases hc with rfl | rfl | rfl <;> exact ⟨by decide, by decide, by decide, by decide,
      by decide, by decide, by decide, by decide, by decide, by decide, by decide, by decide⟩
  obtain ⟨w1, w2, w3, w4, w5, w6, w7, w8, w9, w10, w11, w12⟩ := hws
  apply alt_all_err
  · rw [parse_object_err_cons c t w1]; rfl
  · rw [parse_array_err_cons c t w2]; rfl
  · rw [parse_number_err_head c t w7 w8 w9 w10 w11 w12]; rfl
  · rw [parse_string_err_cons c t w3]; rfl
  · rw [parse_boolean_err_cons c t w4 w5]; rfl
  · rw [parse_null_err_cons c t w6]; rfl

/-- Witness for C10: the document ` true` (leading space) is rejected. -/
theorem C10_witness : parse_json (" true".toList) = .err ⟨" true".toList, .tag⟩ :=
  C10_leading_whitespace ' ' ("true".toList) (Or.inl rfl)

/-- C4: the array parser accepts `[` then comma-separated values (optional
whitespace only around separators, not directly inside the brackets), then
`]`: `[]` is the empty sequence, `[false, null, false]` gives exactly those
three values in order with empty remainder, `[ ]` (whitespace inside the
brackets) is rejected, and any input not starting with `[` fails
recoverably. -/
theorem C4_array_parsing :
    parse_array ("[]".toList) = .ok [] (.array []) ∧
    parse_array ("[false, null, false]".toList) =
      .ok [] (.array [.boolean false, .null, .boolean false]) ∧
    errB (parse_array ("[ ]".toList)) = true ∧
    (∀ i : Input, ¬ (['['] <+: i) → errB (parse_array i) = true) := by
  refine ⟨rfl, rfl, rfl, ?_⟩
  intro i h
  match i with
  | [] => rfl
  | c :: t =>
    have hc : c ≠ '[' := by
      rintro rfl
      exact h ⟨t, rfl⟩
    rw [parse_array_err_cons c t hc]
    rfl

/-- Witness for C4: a non-`[` input fails. -/
theorem C4_witness : errB (parse_array ("something".toList)) = true :=
  (C4_array_parsing).2.2.2 ("something".toList) (by decide)

/-- C5: the number parser converts the matched decimal prefix to its numeric
value (`f64` abstracted exactly, see `decVal`): `42`, `1.2`, `1.3e4` and the
strict-JSON-relaxing `.14` all parse with empty remainder to 42, 1.2, 13000
and 0.14. -/
theorem C5_number_values :
    parse_number ("42".toList) = .ok [] (.number (.fin 42)) ∧
    parse_number ("1.2".toList) = .ok [] (.number (.fin 1.2)) ∧
    parse_number ("1.3e4".toList) = .ok [] (.number (.fin 13000)) ∧
    parse_number (".14".toList) = .ok [] (.number (.fin 0.14)) := by
  have h1 : parse_number ("42".toList) = .ok [] (.number (.fin (decVal 42 0))) := rfl
  have h2 : parse_number ("1.2".toList) = .ok [] (.number (.fin (decVal 12 (-1)))) := rfl
  have h3 : parse_number ("1.3e4".toList) = .ok [] (.number (.fin (decVal 13 3))) := rfl
  have h4 : parse_number (".14".toList) = .ok [] (.number (.fin (decVal 14 (-2)))) := rfl
  rw [show decVal 42 0 = 42 from by norm_num [decVal]] at h1
  rw [show decVal 12 (-1) = 1.2 from by norm_num [decVal]] at h2
  rw [show decVal 13 3 = 13000 from by norm_num [decVal]] at h3
  rw [show decVal 14 (-2) = 0.14 from by norm_num [decVal]] at h4
  exact ⟨h1, h2, h3, h4⟩

theorem map_fst_replace (m : List (Input × JsonNode)) (k0 : Input) (v0 : JsonNode) :
    (m.map (fun p => if p.1 = k0 then (k0, v0) else p)).map Prod.fst = m.map Prod.fst := by
  induction m with
  | nil => rfl
  | cons p rest ih =>
    by_cases hp : p.1 = k0
    · simp [hp, ih]
    · simp [hp, ih]

theorem any_key_iff (m : List (Input × JsonNode)) (k0 : Input) :
    (m.any (fun p => p.1 = k0) = true) ↔ k0 ∈ m.map Prod.fst := by
  simp [List.any_eq_true, List.mem_map]

theorem indexInsert_keys (m : List (Input × JsonNode)) (k0 : Input) (v0 : JsonNode) :
    (indexInsert m k0 v0).map Prod.fst =
      if k0 ∈ m.map Prod.fst then m.map Prod.fst else m.map Prod.fst ++ [k0] := by
  unfold indexInsert
  by_cases hany : m.any (fun p => p.1 = k0) = true
  · rw [if_pos hany, if_pos ((any_key_iff m k0).mp hany), map_fst_replace]
  · rw [if_neg hany, if_neg (fun hm => hany ((any_key_iff m k0).mpr hm))]
    simp

theorem assocLookup_replace (k0 : Input) (v0 : JsonNode) :
    ∀ (m : List (Input × JsonNode)) (k : Input),
      assocLookup (m.map (fun p => if p.1 = k0 then (k0, v0) else p)) k =
        if k = k0 ∧ m.any (fun p => p.1 = k0) = true then some v0 else assocLookup m k := by
  intro m
  induction m with
  | nil => intro k; simp [assocLookup]
  | cons p rest ih =>
    intro k
    obtain ⟨pk, pv⟩ := p
    by_cases hp : pk = k0
    · subst hp
      by_cases hk : k = pk
      · subst hk
        simp [assocLookup, List.any_cons]
      · have hpk : ¬ pk = k := fun h => hk h.symm
        simp [assocLookup, List.any_cons, ih, hk, hpk]
    · by_cases hpk : pk = k
      · have hk : ¬ k = k0 := fun h => hp (hpk.trans h)
        simp [assocLookup, hp, hpk, hk, List.any_cons]
      · have hcond : (k = k0 ∧ ((((pk, pv) :: rest).any fun p => decide (p.1 = k0)) = true)) ↔
            (k = k0 ∧ ((rest.any fun p => decide (p.1 = k0)) = true)) := by
          simp [List.any_cons, hp]
        rw [if_congr hcond rfl rfl]
        simp [assocLookup, hp, hpk, ih]

theorem assocLookup_append_one (k0 k : Input) (v0 : JsonNode) :
    ∀ m : List (Input × JsonNode),
      assocLookup (m ++ [(k0, v0)]) k =
        match assocLookup m k with
        | some w => some w
        | none => if k0 = k then some v0 else none := by
  intro m
  induction m with
  | nil => simp [assocLookup]
  | cons p rest ih =>
    obtain ⟨pk, pv⟩ := p
    by_cases hpk : pk = k
    · simp [assocLookup, hpk]
    · simp only [List.cons_append, assocLookup, if_neg hpk]
      exact ih

theorem assocLookup_none_of_not_any (m : List (Input × JsonNode)) (k0 : Input)
    (h : m.any (fun p => p.1 = k0) = false) : assocLookup m k0 = none := by
  induction m with
  | nil => rfl
  | cons p rest ih =>
    simp only [List.any_cons, Bool.or_eq_false_iff] at h
    have hp : ¬ (p.1 = k0) := by simpa using h.1
    simp only [assocLookup, if_neg hp]
    exact ih h.2

theorem indexInsert_lookup (m : List (Input × JsonNode)) (k0 k : Input) (v0 : JsonNode) :
    assocLookup (indexInsert m k0 v0) k =
      if k0 = k then some v0 else assocLookup m k := by
  unfold indexInsert
  by_cases hany : m.any (fun p => p.1 = k0) = true
  · rw [if_pos hany, assocLookup_replace k0 v0 m k]
    by_cases hk : k0 = k
    · rw [if_pos ⟨hk.symm, hany⟩, if_pos hk]
    · rw [if_neg (fun h => hk h.1.symm), if_neg hk]
  · rw [if_neg hany, assocLookup_append_one k0 k v0 m]
    by_cases hk : k0 = k
    · subst hk
      rw [assocLookup_none_of_not_any m k0 (Bool.not_eq_true _ ▸ hany)]
    · cases hm : assocLookup m k
      all_goals simp [hk]

theorem lastVal_cons (k1 : Input) (v1 : JsonNode) (rest : List (Input × JsonNode)) (k : Input) :
    lastVal ((k1, v1) :: rest) k =
      match lastVal rest k with
      | some w => some w
      | none => if k1 = k then some v1 else none := rfl

theorem collect_fold_keys (l : List (Input × JsonNode)) :
    ∀ m : List (Input × JsonNode),
      ((l.foldl (fun mm kv => indexInsert mm kv.1 kv.2) m).map Prod.fst) =
        firstOccFrom (m.map Prod.fst) (l.map Prod.fst) := by
  induction l with
  | nil => intro m; rfl
  | cons kv rest ih =>
    intro m
    rw [List.foldl_cons, ih (indexInsert m kv.1 kv.2), List.map_cons]
    unfold firstOccFrom
    rw [List.foldl_cons, indexInsert_keys]

theorem collect_fold_lookup (l : List (Input × JsonNode)) :
    ∀ (m : List (Input × JsonNode)) (k : Input),
      assocLookup (l.foldl (fun mm kv => indexInsert mm kv.1 kv.2) m) k =
        match lastVal l k with
        | some w => some w
        | none => assocLookup m k := by
  induction l with
  | nil => intro m k; rfl
  | cons kv rest ih =>
    obtain ⟨k1, v1⟩ := kv
    intro m k
    rw [List.foldl_cons, ih (indexInsert m k1 v1) k, lastVal_cons]
    cases hlv : lastVal rest k with
    | some w => rfl
    | none =>
      show assocLookup (indexInsert m k1 v1) k = _
      rw [indexInsert_lookup]
      by_cases hk : k1 = k <;> simp [hk]

/-- C1: a repeated object key keeps the position of its first occurrence
(key order is `firstOccKeys` of the raw entry keys) while the stored value
is that of the last occurrence (`lastVal`); in particular parsing
`{"a": 1, "a": 2}` succeeds and yields the single-entry mapping
`{a: 2}`. -/
theorem C1_duplicate_keys :
    (∀ l : List (Input × JsonNode),
      (indexMapCollect l).map Prod.fst = firstOccKeys (l.map Prod.fst) ∧
      ∀ k, assocLookup (indexMapCollect l) k = lastVal l k) ∧
    parse_json ("\x7b\"a\": 1, \"a\": 2\x7d".toList) =
      .ok [] (.object [("a".toList, .number (.fin 2))]) := by
  constructor
  · intro l
    constructor
    · exact collect_fold_keys l []
    · intro k
      rw [show indexMapCollect l = l.foldl (fun mm kv => indexInsert mm kv.1 kv.2) [] from rfl,
        collect_fold_lookup l [] k]
      cases hlv : lastVal l k <;> rfl
  · have h : parse_json ("\x7b\"a\": 1, \"a\": 2\x7d".toList) =
        .ok [] (.object [("a".toList, .number (.fin (decVal 2 0)))]) := rfl
    rw [show decVal 2 0 = 2 from by norm_num [decVal]] at h
    exact h

theorem drop_length_takeWhile (p : Char → Bool) (t : Input) :
    t.drop ((t.takeWhile p).length) = t.dropWhile p := by
  rw [show t.drop ((t.takeWhile p).length) =
      ((t.takeWhile p ++ t.dropWhile p)).drop ((t.takeWhile p).length) from by
    rw [List.takeWhile_append_dropWhile p t]]
  rw [List.drop_left]

theorem take_length_takeWhile (p : Char → Bool) (t : Input) :
    t.take ((t.takeWhile p).length) = t.takeWhile p :=
  (List.prefix_iff_eq_take.mp ( List.takeWhile_prefix p)).symm

theorem findSub_quote (t : Input) :
    ('"' ∈ t → findSub ['"'] t = some ((t.takeWhile (fun c => c != '"')).length)) ∧
    ('"' ∉ t → findSub ['"'] t = none) := by
  induction t with
  | nil => exact ⟨fun h => absurd h (List.not_mem_nil _), fun _ => rfl⟩
  | cons c rest ih =>
    by_cases hc : c = '"'
    · subst hc
      constructor
      · intro _
        have hpre : (['"'].isPrefixOf ('"' :: rest)) = true := by
          simp [single_isPrefixOf_cons]
        unfold findSub
        rw [if_pos hpre]
        simp [List.takeWhile_cons]
      · intro hmem
        exact absurd (List.mem_cons_self _ _) hmem
    · have hpre : (['"'].isPrefixOf (c :: rest)) = false := by
        rw [single_isPrefixOf_cons]
        exact beq_eq_false_iff_ne.mpr (fun h => hc h.symm)
      constructor
      · intro hmem
        have hmem' : '"' ∈ rest := by
          rcases List.mem_cons.mp hmem with h | h
          · exact absurd h.symm hc
          · exact h
        have hpc : (c != '"') = true := bne_iff_ne.mpr hc
        unfold findSub
        rw [if_neg (by simp [hpre]), ih.1 hmem']
        simp [List.takeWhile_cons, hpc]
      · intro hmem
        have hmem' : '"' ∉ rest := fun h => hmem (List.mem_cons_of_mem c h)
        unfold findSub
        rw [if_neg (by simp [hpre]), ih.2 hmem']
        rfl

theorem dropWhile_quote (t : Input) (hm : '"' ∈ t) :
    ∃ u, t.dropWhile (fun c => c != '"') = '"' :: u := by
  induction t with
  | nil => exact absurd hm (List.not_mem_nil _)
  | cons c rest ih =>
    by_cases hc : c = '"'
    · subst hc
      exact ⟨rest, by simp [List.dropWhile_cons]⟩
    · have hmem' : '"' ∈ rest := by
        rcases List.mem_cons.mp hm with h | h
        · exact absurd h.symm hc
        · exact h
      obtain ⟨u, hu⟩ := ih hmem'
      refine ⟨u, ?_⟩
      rw [List.dropWhile_cons, if_pos (bne_iff_ne.mpr hc)]
      exact hu

theorem tag_quote_cons (t : Input) : tagP ['"'] ('"' :: t) = .ok t ['"'] := by
  unfold tagP
  rw [if_pos (by simp [single_isPrefixOf_cons])]
  rfl

theorem parse_string_inner_eq (t : Input) (hm : '"' ∈ t) :
    parse_string_inner ('"' :: t) =
      .ok ((t.dropWhile (fun c => c != '"')).drop 1) (t.takeWhile (fun c => c != '"')) := by
  have h2 : takeUntilP ['"'] t =
      .ok (t.dropWhile (fun c => c != '"')) (t.takeWhile (fun c => c != '"')) := by
    unfold takeUntilP
    rw [(findSub_quote t).1 hm]
    show PResult.ok (t.drop ((t.takeWhile (fun c => c != '"')).length))
        (t.take ((t.takeWhile (fun c => c != '"')).length)) = _
    rw [drop_length_takeWhile (fun c => c != '"') t,
      take_length_takeWhile (fun c => c != '"') t]
  obtain ⟨u, hu⟩ := dropWhile_quote t hm
  have h3 : tagP ['"'] (t.dropWhile (fun c => c != '"')) =
      .ok ((t.dropWhile (fun c => c != '"')).drop 1) ['"'] := by
    rw [hu, tag_quote_cons]
    rfl
  simp only [parse_string_inner, tag_quote_cons, h2, h3]

theorem takeUntilP_err (t : Input) (hm : '"' ∉ t) :
    takeUntilP ['"'] t = .err ⟨t, .takeUntil⟩ := by
  unfold takeUntilP
  rw [(findSub_quote t).2 hm]

/-- C3: the string-literal parser succeeds exactly when the input starts
with `"` and another `"` occurs later; on success it returns the raw text
strictly between the first two quotes (a backslash is ordinary) and the
remainder after the closing quote; a missing opening or closing quote is a
recoverable failure. -/
theorem C3_string_literal : ∀ i : Input,
    (okB (parse_string_inner i) = true ↔ ∃ t, i = '"' :: t ∧ '"' ∈ t) ∧
    (∀ t, i = '"' :: t → '"' ∈ t →
      parse_string_inner i =
        .ok ((t.dropWhile (fun c => c != '"')).drop 1) (t.takeWhile (fun c => c != '"'))) ∧
    (¬ (∃ t, i = '"' :: t ∧ '"' ∈ t) → errB (parse_string_inner i) = true) := by
  intro i
  have hshape : ∀ t, i = '"' :: t → '"' ∉ t → parse_string_inner i = .err ⟨t, .takeUntil⟩ := by
    rintro t rfl hm
    simp only [parse_string_inner, tag_quote_cons, takeUntilP_err t hm]
  refine ⟨⟨?_, ?_⟩, ?_, ?_⟩
  · intro hok
    obtain ⟨t, rfl⟩ := parse_string_inner_ok_head i hok
    by_cases hm : '"' ∈ t
    · exact ⟨t, rfl, hm⟩
    · rw [hshape t rfl hm] at hok
      simp [okB] at hok
  · rintro ⟨t, rfl, hm⟩
    rw [parse_string_inner_eq t hm]
    rfl
  · rintro t rfl hm
    rw [parse_string_inner_eq t hm]
  · intro hno
    match i with
    | [] => rfl
    | c :: t =>
      by_cases hc : c = '"'
      · subst hc
        by_cases hm : '"' ∈ t
        · exact absurd ⟨t, rfl, hm⟩ hno
        · rw [hshape t rfl hm]
          rfl
      · rw [parse_string_inner_err_head (c :: t)
          (by rw [single_isPrefixOf_cons]; exact beq_eq_false_iff_ne.mpr (Ne.symm hc))]
        rfl

/-- Witness for C3: `"abc"` parses to the raw content `abc` with empty
remainder. -/
theorem C3_witness : parse_string_inner ("\"abc\"".toList) = .ok [] ("abc".toList) :=
  (C3_string_literal ("\"abc\"".toList)).2.1 ("abc\"".toList) rfl (by decide)

/-! ### The remainder of every successful parse is a suffix of its input -/

theorem suffix_of_drop_eq_cons {l t : Input} {c : Char} {n : Nat} (h : l.drop n = c :: t) :
    t <:+ l := by
  have h1 : t <:+ c :: t := ⟨[c], rfl⟩
  have h2 : c :: t <:+ l := h ▸ List.drop_suffix n l
  exact h1.trans h2

theorem afterSign_suffix (i : Input) : afterSign i <:+ i := by
  unfold afterSign
  match i with
  | [] => exact List.suffix_rfl
  | c :: rest =>
    show (if c = '+' ∨ c = '-' then rest else c :: rest) <:+ c :: rest
    by_cases h : c = '+' ∨ c = '-'
    · rw [if_pos h]
      exact ⟨[c], rfl⟩
    · rw [if_neg h]

theorem multispace0_suffix (i : Input) : multispace0 i <:+ i :=
  List.dropWhile_suffix isSpaceChar

theorem tagP_suffix {t i r s : Input} (h : tagP t i = .ok r s) : r <:+ i := by
  unfold tagP at h
  split at h
  · injection h with h1 h2
    subst h1
    exact List.drop_suffix _ _
  · exact PResult.noConfusion h

theorem tagNoCase_suffix {t i r s : Input} (h : tagNoCase t i = .ok r s) : r <:+ i := by
  unfold tagNoCase at h
  split at h
  · injection h with h1 h2
    subst h1
    exact List.drop_suffix _ _
  · exact PResult.noConfusion h

theorem takeUntilP_suffix {t i r s : Input} (h : takeUntilP t i = .ok r s) : r <:+ i := by
  unfold takeUntilP at h
  split at h
  · injection h with h1 h2
    subst h1
    exact List.drop_suffix _ _
  · exact PResult.noConfusion h

theorem mantissaEnd_suffix {i1 i2 s : Input} (h : mantissaEnd i1 = .ok i2 s) : i2 <:+ i1 := by
  unfold mantissaEnd at h
  split at h
  · split at h
    · rename_i i3 heq
      injection h with h1 _
      subst h1
      exact (List.drop_suffix _ _).trans (suffix_of_drop_eq_cons heq)
    · injection h with h1 _
      subst h1
      exact List.drop_suffix _ _
  · split at h
    · rename_i i3
      split at h
      · injection h with h1 _
        subst h1
        exact (List.drop_suffix _ _).trans ⟨['.'], rfl⟩
      · exact PResult.noConfusion h
    · exact PResult.noConfusion h

theorem expEnd_suffix {i2 i3 s : Input} (h : expEnd i2 = .ok i3 s) : i3 <:+ i2 := by
  unfold expEnd at h
  split at h
  · rename_i c i4
    split at h
    · simp only [] at h
      split at h
      · injection h with h1 _
        subst h1
        exact ((List.drop_suffix _ _).trans (afterSign_suffix i4)).trans ⟨[c], rfl⟩
      · exact PResult.noConfusion h
    · injection h with h1 _
      subst h1
      exact List.suffix_rfl
  · injection h with h1 _
    subst h1
    exact List.suffix_rfl

theorem recognizeFloat_suffix {i r s : Input} (h : recognizeFloat i = .ok r s) : r <:+ i := by
  unfold recognizeFloat at h
  cases hm : mantissaEnd (afterSign i) with
  | err e => simp only [hm] at h; exact PResult.noConfusion h
  | fail e => simp only [hm] at h; exact PResult.noConfusion h
  | ok i2 s2 =>
    simp only [hm] at h
    cases he : expEnd i2 with
    | err e => simp only [he] at h; exact PResult.noConfusion h
    | fail e => simp only [he] at h; exact PResult.noConfusion h
    | ok i3 s3 =>
      simp only [he] at h
      injection h with h1 _
      subst h1
      exact ((expEnd_suffix he).trans (mantissaEnd_suffix hm)).trans (afterSign_suffix i)

theorem recognizeFloatOrExceptions_suffix {i r s : Input}
    (h : recognizeFloatOrExceptions i = .ok r s) : r <:+ i := by
  unfold recognizeFloatOrExceptions at h
  cases hrf : recognizeFloat i with
  | ok r1 s1 =>
    simp only [hrf] at h
    injection h with h1 _
    subst h1
    exact recognizeFloat_suffix hrf
  | fail e => simp only [hrf] at h; exact PResult.noConfusion h
  | err e =>
    simp only [hrf] at h
    cases h1 : tagNoCase ("nan".toList) i with
    | ok r1 s1 =>
      simp only [h1] at h
      injection h with ha _
      subst ha
      exact tagNoCase_suffix h1
    | err e1 =>
      simp only [h1] at h
      cases h2 : tagNoCase ("infinity".toList) i with
      | ok r1 s1 =>
        simp only [h2] at h
        injection h with ha _
        subst ha
        exact tagNoCase_suffix h2
      | err e2 =>
        simp only [h2] at h
        cases h3 : tagNoCase ("inf".toList) i with
        | ok r1 s1 =>
          simp only [h3] at h
          injection h with ha _
          subst ha
          exact tagNoCase_suffix h3
        | err e3 => simp only [h3] at h; exact PResult.noConfusion h
        | fail e3 => simp only [h3] at h; exact PResult.noConfusion h
      | fail e2 =>
        simp only [h2] at h
        cases h3 : tagNoCase ("inf".toList) i with
        | ok r1 s1 =>
          simp only [h3] at h
          injection h with ha _
          subst ha
          exact tagNoCase_suffix h3
        | err e3 => simp only [h3] at h; exact PResult.noConfusion h
        | fail e3 => simp only [h3] at h; exact PResult.noConfusion h
    | fail e1 =>
      simp only [h1] at h
      cases h2 : tagNoCase ("infinity".toList) i with
      | ok r1 s1 =>
        simp only [h2] at h
        injection h with ha _
        subst ha
        exact tagNoCase_suffix h2
      | err e2 =>
        simp only [h2] at h
        cases h3 : tagNoCase ("inf".toList) i with
        | ok r1 s1 =>
          simp only [h3] at h
          injection h with ha _
          subst ha
          exact tagNoCase_suffix h3
        | err e3 => simp only [h3] at h; exact PResult.noConfusion h
        | fail e3 => simp only [h3] at h; exact PResult.noConfusion h
      | fail e2 =>
        simp only [h2] at h
        cases h3 : tagNoCase ("inf".toList) i with
        | ok r1 s1 =>
          simp only [h3] at h
          injection h with ha _
          subst ha
          exact tagNoCase_suffix h3
        | err e3 => simp only [h3] at h; exact PResult.noConfusion h
        | fail e3 => simp only [h3] at h; exact PResult.noConfusion h

theorem parse_number_suffix {i r : Input} {v : JsonNode}
    (h : parse_number i = .ok r v) : r <:+ i := by
  unfold parse_number double at h
  cases hr : recognizeFloatOrExceptions i with
  | err e => simp only [hr] at h; exact PResult.noConfusion h
  | fail e => simp only [hr] at h; exact PResult.noConfusion h
  | ok rest s =>
    simp only [hr] at h
    cases hp : parseF64 s with
    | some w =>
      simp only [hp] at h
      injection h with h1 _
      subst h1
      exact recognizeFloatOrExceptions_suffix hr
    | none => simp only [hp] at h; exact PResult.noConfusion h

theorem parse_string_inner_suffix {i r s : Input}
    (h : parse_string_inner i = .ok r s) : r <:+ i := by
  unfold parse_string_inner at h
  cases h1 : tagP ['"'] i with
  | err e => simp only [h1] at h; exact PResult.noConfusion h
  | fail e => simp only [h1] at h; exact PResult.noConfusion h
  | ok i1 s1 =>
    simp only [h1] at h
    cases h2 : takeUntilP ['"'] i1 with
    | err e => simp only [h2] at h; exact PResult.noConfusion h
    | fail e => simp only [h2] at h; exact PResult.noConfusion h
    | ok i2 s2 =>
      simp only [h2] at h
      cases h3 : tagP ['"'] i2 with
      | err e => simp only [h3] at h; exact PResult.noConfusion h
      | fail e => simp only [h3] at h; exact PResult.noConfusion h
      | ok i3 s3 =>
        simp only [h3] at h
        injection h with ha _
        subst ha
        exact ((tagP_suffix h3).trans (takeUntilP_suffix h2)).trans (tagP_suffix h1)

theorem parse_string_suffix {i r : Input} {v : JsonNode}
    (h : parse_string i = .ok r v) : r <:+ i := by
  unfold parse_string at h
  cases h1 : parse_string_inner i with
  | err e => simp only [h1] at h; exact PResult.noConfusion h
  | fail e => simp only [h1] at h; exact PResult.noConfusion h
  | ok i1 s1 =>
    simp only [h1] at h
    injection h with ha _
    subst ha
    exact parse_string_inner_suffix h1

theorem parse_boolean_suffix {i r : Input} {v : JsonNode}
    (h : parse_boolean i = .ok r v) : r <:+ i := by
  unfold parse_boolean at h
  cases h1 : tagP ("true".toList) i with
  | ok i1 s1 =>
    simp only [h1] at h
    injection h with ha _
    subst ha
    exact tagP_suffix h1
  | fail e => simp only [h1] at h; exact PResult.noConfusion h
  | err e =>
    simp only [h1] at h
    cases h2 : tagP ("false".toList) i with
    | ok i1 s1 =>
      simp only [h2] at h
      injection h with ha _
      subst ha
      exact tagP_suffix h2
    | err e2 => simp only [h2] at h; exact PResult.noConfusion h
    | fail e2 => simp only [h2] at h; exact PResult.noConfusion h

theorem parse_null_suffix {i r : Input} {v : JsonNode}
    (h : parse_null i = .ok r v) : r <:+ i := by
  unfold parse_null at h
  cases h1 : tagP ("null".toList) i with
  | ok i1 s1 =>
    simp only [h1] at h
    injection h with ha _
    subst ha
    exact tagP_suffix h1
  | err e => simp only [h1] at h; exact PResult.noConfusion h
  | fail e => simp only [h1] at h; exact PResult.noConfusion h

theorem sepListLoop_suffix {α γ : Type} (sep : Input → PResult γ) (elem : Input → PResult α)
    (hsep : ∀ i r v, sep i = .ok r v → r <:+ i)
    (helem : ∀ i r v, elem i = .ok r v → r <:+ i) :
    ∀ (f : Nat) (i : Input) (acc : List α) (r : Input) (out : List α),
      sepListLoop sep elem f i acc = .ok r out → r <:+ i := by
  intro f
  induction f with
  | zero =>
    intro i acc r out h
    exact PResult.noConfusion h
  | succ f ih =>
    intro i acc r out h
    unfold sepListLoop at h
    cases hs : sep i with
    | err e =>
      simp only [hs] at h
      injection h with h1 _
      subst h1
      exact List.suffix_rfl
    | fail e =>
      simp only [hs] at h
      exact PResult.noConfusion h
    | ok i1 v =>
      simp only [hs] at h
      by_cases hlen : i1.length = i.length
      · rw [if_pos hlen] at h
        exact PResult.noConfusion h
      · rw [if_neg hlen] at h
        cases he : elem i1 with
        | err e =>
          simp only [he] at h
          injection h with h1 _
          subst h1
          exact List.suffix_rfl
        | fail e =>
          simp only [he] at h
          exact PResult.noConfusion h
        | ok i2 v2 =>
          simp only [he] at h
          exact ((ih i2 _ r out h).trans (helem i1 i2 v2 he)).trans (hsep i i1 v hs)

theorem sepList0_suffix {α γ : Type} (sep : Input → PResult γ) (elem : Input → PResult α)
    (hsep : ∀ i r v, sep i = .ok r v → r <:+ i)
    (helem : ∀ i r v, elem i = .ok r v → r <:+ i)
    {i r : Input} {out : List α} (h : sepList0 sep elem i = .ok r out) : r <:+ i := by
  unfold sepList0 at h
  cases he : elem i with
  | err e =>
    simp only [he] at h
    injection h with h1 _
    subst h1
    exact List.suffix_rfl
  | fail e =>
    simp only [he] at h
    exact PResult.noConfusion h
  | ok i1 v =>
    simp only [he] at h
    exact (sepListLoop_suffix sep elem hsep helem _ i1 [v] r out h).trans (helem i i1 v he)

theorem arrSep_suffix (i r : Input) (v : Input) (h : arrSep i = .ok r v) : r <:+ i := by
  unfold arrSep at h
  cases ht : tagP [','] (multispace0 i) with
  | ok i2 t =>
    simp only [ht] at h
    injection h with h1 _
    subst h1
    exact ((multispace0_suffix i2).trans (tagP_suffix ht)).trans (multispace0_suffix i)
  | err e => simp only [ht] at h; exact PResult.noConfusion h
  | fail e => simp only [ht] at h; exact PResult.noConfusion h

theorem entryP_suffix (pj : Input → PResult JsonNode)
    (hpj : ∀ i r v, pj i = .ok r v → r <:+ i) :
    ∀ (i r : Input) (kv : Input × JsonNode), entryP pj i = .ok r kv → r <:+ i := by
  intro i r kv h
  unfold entryP at h
  cases h1 : parse_string_inner (multispace0 i) with
  | err e => simp only [h1] at h; exact PResult.noConfusion h
  | fail e => simp only [h1] at h; exact PResult.noConfusion h
  | ok i2 k =>
    simp only [h1] at h
    cases h2 : tagP [':'] (multispace0 i2) with
    | err e => simp only [h2] at h; exact PResult.noConfusion h
    | fail e => simp only [h2] at h; exact PResult.noConfusion h
    | ok i4 s4 =>
      simp only [h2] at h
      cases h3 : pj (multispace0 i4) with
      | err e => simp only [h3] at h; exact PResult.noConfusion h
      | fail e => simp only [h3] at h; exact PResult.noConfusion h
      | ok i6 v =>
        simp only [h3] at h
        injection h with ha _
        subst ha
        have s6 : multispace0 i6 <:+ i6 := multispace0_suffix i6
        have s5 : i6 <:+ multispace0 i4 := hpj _ _ _ h3
        have s4' : multispace0 i4 <:+ i4 := multispace0_suffix i4
        have s3 : i4 <:+ multispace0 i2 := tagP_suffix h2
        have s2 : multispace0 i2 <:+ i2 := multispace0_suffix i2
        have s1 : i2 <:+ multispace0 i := parse_string_inner_suffix h1
        have s0 : multispace0 i <:+ i := multispace0_suffix i
        exact ((((((s6.trans s5).trans s4').trans s3).trans s2).trans s1).trans s0)

theorem objectBody_suffix (pj : Input → PResult JsonNode)
    (hpj : ∀ i r v, pj i = .ok r v → r <:+ i) :
    ∀ (i r : Input) (v : JsonNode), objectBody pj i = .ok r v → r <:+ i := by
  intro i r v h
  unfold objectBody at h
  cases h1 : tagP ['\x7b'] i with
  | err e => simp only [h1] at h; exact PResult.noConfusion h
  | fail e => simp only [h1] at h; exact PResult.noConfusion h
  | ok i1 s1 =>
    simp only [h1] at h
    cases h2 : sepList0 objSep (entryP pj) i1 with
    | err e => simp only [h2] at h; exact PResult.noConfusion h
    | fail e => simp only [h2] at h; exact PResult.noConfusion h
    | ok i2 entries =>
      simp only [h2] at h
      cases h3 : tagP ['\x7d'] i2 with
      | err e => simp only [h3] at h; exact PResult.noConfusion h
      | fail e => simp only [h3] at h; exact PResult.noConfusion h
      | ok i3 s3 =>
        simp only [h3] at h
        injection h with ha _
        subst ha
        have hs2 : i2 <:+ i1 :=
          sepList0_suffix objSep (entryP pj)
            (fun i r v hh => tagP_suffix hh) (entryP_suffix pj hpj) h2
        exact ((tagP_suffix h3).trans hs2).trans (tagP_suffix h1)

theorem arrayBody_suffix (pj : Input → PResult JsonNode)
    (hpj : ∀ i r v, pj i = .ok r v → r <:+ i) :
    ∀ (i r : Input) (v : JsonNode), arrayBody pj i = .ok r v → r <:+ i := by
  intro i r v h
  unfold arrayBody at h
  cases h1 : tagP ['['] i with
  | err e => simp only [h1] at h; exact PResult.noConfusion h
  | fail e => simp only [h1] at h; exact PResult.noConfusion h
  | ok i1 s1 =>
    simp only [h1] at h
    cases h2 : sepList0 arrSep pj i1 with
    | err e => simp only [h2] at h; exact PResult.noConfusion h
    | fail e => simp only [h2] at h; exact PResult.noConfusion h
    | ok i2 elems =>
      simp only [h2] at h
      cases h3 : tagP [']'] i2 with
      | err e => simp only [h3] at h; exact PResult.noConfusion h
      | fail e => simp only [h3] at h; exact PResult.noConfusion h
      | ok i3 s3 =>
        simp only [h3] at h
        injection h with ha _
        subst ha
        have hs2 : i2 <:+ i1 :=
          sepList0_suffix arrSep pj arrSep_suffix hpj h2
        exact ((tagP_suffix h3).trans hs2).trans (tagP_suffix h1)

theorem parseJsonF_suffix :
    ∀ (f : Nat) (i r : Input) (v : JsonNode), parseJsonF f i = .ok r v → r <:+ i := by
  intro f
  induction f with
  | zero =>
    intro i r v h
    exact PResult.noConfusion h
  | succ f ih =>
    intro i r v h
    unfold parseJsonF at h
    cases h1 : objectBody (fun j => parseJsonF f j) i with
    | ok r1 v1 =>
      simp only [h1] at h
      injection h with ha hb
      subst ha
      exact objectBody_suffix _ (fun i' r' v' hh => ih i' r' v' hh) _ _ _ h1
    | fail e => simp only [h1] at h; exact PResult.noConfusion h
    | err e1 =>
      simp only [h1] at h
      cases h2 : arrayBody (fun j => parseJsonF f j) i with
      | ok r1 v1 =>
        simp only [h2] at h
        injection h with ha hb
        subst ha
        exact arrayBody_suffix _ (fun i' r' v' hh => ih i' r' v' hh) _ _ _ h2
      | fail e => simp only [h2] at h; exact PResult.noConfusion h
      | err e2 =>
        simp only [h2] at h
        cases h3 : parse_number i with
        | ok r1 v1 =>
          simp only [h3] at h
          injection h with ha hb
          subst ha
          exact parse_number_suffix h3
        | fail e => simp only [h3] at h; exact PResult.noConfusion h
        | err e3 =>
          simp only [h3] at h
          cases h4 : parse_string i with
          | ok r1 v1 =>
            simp only [h4] at h
            injection h with ha hb
            subst ha
            exact parse_string_suffix h4
          | fail e => simp only [h4] at h; exact PResult.noConfusion h
          | err e4 =>
            simp only [h4] at h
            cases h5 : parse_boolean i with
            | ok r1 v1 =>
              simp only [h5] at h
              injection h with ha hb
              subst ha
              exact parse_boolean_suffix h5
            | fail e => simp only [h5] at h; exact PResult.noConfusion h
            | err e5 =>
              simp only [h5] at h
              exact parse_null_suffix h

/-- C7: every successful parse of any production (and of the dispatcher)
returns as remainder a suffix of its input: there is a matched prefix
`pre` with `pre ++ remainder = input`. -/
theorem C7_remainder_suffix : ∀ i r : Input,
    (∀ v, parse_json i = .ok r v → ∃ pre, pre ++ r = i) ∧
    (∀ v, parse_object i = .ok r v → ∃ pre, pre ++ r = i) ∧
    (∀ v, parse_array i = .ok r v → ∃ pre, pre ++ r = i) ∧
    (∀ v, parse_number i = .ok r v → ∃ pre, pre ++ r = i) ∧
    (∀ s, parse_string_inner i = .ok r s → ∃ pre, pre ++ r = i) ∧
    (∀ v, parse_string i = .ok r v → ∃ pre, pre ++ r = i) ∧
    (∀ v, parse_boolean i = .ok r v → ∃ pre, pre ++ r = i) ∧
    (∀ v, parse_null i = .ok r v → ∃ pre, pre ++ r = i) := by
  intro i r
  refine ⟨?_, ?_, ?_, ?_, ?_, ?_, ?_, ?_⟩
  · intro v h
    exact parseJsonF_suffix _ i r v h
  · intro v h
    exact objectBody_suffix _ (fun i' r' v' hh => parseJsonF_suffix _ i' r' v' hh) _ _ _ h
  · intro v h
    exact arrayBody_suffix _ (fun i' r' v' hh => parseJsonF_suffix _ i' r' v' hh) _ _ _ h
  · intro v h
    exact parse_number_suffix h
  · intro s h
    exact parse_string_inner_suffix h
  · intro v h
    exact parse_string_suffix h
  · intro v h
    exact parse_boolean_suffix h
  · intro v h
    exact parse_null_suffix h

/-- Witness for C7: instantiated at the boolean production on `truex`,
which consumes `true` and leaves the suffix `x`. -/
theorem C7_witness : ∃ pre : Input, pre ++ ("x".toList : Input) = "truex".toList :=
  (C7_remainder_suffix ("truex".toList) ("x".toList)).2.2.2.2.2.2.1 (.boolean true) rfl

theorem tagP_cons_self (c : Char) (t : Input) : tagP [c] (c :: t) = .ok t [c] := by
  unfold tagP
  rw [if_pos (by simp [single_isPrefixOf_cons])]
  rfl

theorem tagP_single_ok {c : Char} {i r s : Input} (h : tagP [c] i = .ok r s) : i = c :: r := by
  unfold tagP at h
  split at h
  · rename_i hpre
    obtain ⟨rest, hrest⟩ := List.isPrefixOf_iff_prefix.mp hpre
    injection h with h1 _
    subst h1
    rw [← hrest]
    rfl
  · exact PResult.noConfusion h

theorem multispace0_cons_no_ws (c : Char) (r : Input) (h : isSpaceChar c = false) :
    multispace0 (c :: r) = c :: r := by
  unfold multispace0
  rw [List.dropWhile_cons, if_neg (by simp [h])]

theorem arrSep_err_cons (c : Char) (r : Input) (h1 : isSpaceChar c = false) (h2 : c ≠ ',') :
    arrSep (c :: r) = .err ⟨c :: r, .tag⟩ := by
  unfold arrSep tagP
  rw [multispace0_cons_no_ws c r h1,
    if_neg (by rw [single_isPrefixOf_cons]; simp [beq_eq_false_iff_ne.mpr (Ne.symm h2)])]

theorem objSep_err_cons (c : Char) (r : Input) (h2 : c ≠ ',') :
    objSep (c :: r) = .err ⟨c :: r, .tag⟩ := by
  unfold objSep tagP
  rw [if_neg (by rw [single_isPrefixOf_cons]; simp [beq_eq_false_iff_ne.mpr (Ne.symm h2)])]

theorem entryP_err_cons (pj : Input → PResult JsonNode) (c : Char) (r : Input)
    (h1 : isSpaceChar c = false) (h2 : c ≠ '"') :
    entryP pj (c :: r) = .err ⟨c :: r, .tag⟩ := by
  unfold entryP
  rw [multispace0_cons_no_ws c r h1,
    parse_string_inner_err_head (c :: r)
      (by rw [single_isPrefixOf_cons]; exact beq_eq_false_iff_ne.mpr (Ne.symm h2))]

theorem parseJsonF_err_head (f : Nat) (c : Char) (t : Input)
    (w1 : c ≠ '\x7b') (w2 : c ≠ '[') (w3 : c ≠ '"') (w4 : c ≠ 't') (w5 : c ≠ 'f')
    (w6 : c ≠ 'n') (w7 : c ≠ '+') (w8 : c ≠ '-') (w9 : c ≠ '.') (w10 : c.isDigit = false)
    (w11 : c.toLower ≠ 'n') (w12 : c.toLower ≠ 'i') :
    parseJsonF (f + 1) (c :: t) = .err ⟨c :: t, .tag⟩ := by
  have e1 := objectBody_err (fun j => parseJsonF f j) (c :: t)
    (by rw [single_isPrefixOf_cons]; exact beq_eq_false_iff_ne.mpr (Ne.symm w1))
  have e2 := arrayBody_err (fun j => parseJsonF f j) (c :: t)
    (by rw [single_isPrefixOf_cons]; exact beq_eq_false_iff_ne.mpr (Ne.symm w2))
  have e3 := parse_number_err_head c t w7 w8 w9 w10 w11 w12
  have e4 := parse_string_err_cons c t w3
  have e5 := parse_boolean_err_cons c t w4 w5
  have e6 := parse_null_err_cons c t w6
  unfold parseJsonF
  simp only [e1, e2, e3, e4, e5, e6]

/-- C8: a failing nested production never yields a truncated container.  A
successful array (resp. object) parse stops its element list exactly at the
closing bracket: at the stopping point neither the separator nor an element
(resp. entry) can be parsed, so no elements matched before a failure are
ever silently returned — the enclosing construct fails instead, as the
concrete `[false, oops]` and `{"a": true, "b": oops}` rejections show. -/
theorem C8_no_partial_results :
    (∀ i r : Input, ∀ v : JsonNode, parse_array i = .ok r v →
      ∃ t i2 es, i = '[' :: t ∧
        sepList0 arrSep (fun j => parseJsonF i.length j) t = .ok i2 es ∧
        v = .array es ∧ i2 = ']' :: r ∧
        errB (arrSep i2) = true ∧
        errB (parseJsonF i.length i2) = true) ∧
    (∀ i r : Input, ∀ v : JsonNode, parse_object i = .ok r v →
      ∃ t i2 es, i = '\x7b' :: t ∧
        sepList0 objSep (entryP (fun j => parseJsonF i.length j)) t = .ok i2 es ∧
        v = .object (indexMapCollect es) ∧ i2 = '\x7d' :: r ∧
        errB (objSep i2) = true ∧
        errB (entryP (fun j => parseJsonF i.length j) i2) = true) ∧
    errB (parse_array ("[false, oops]".toList)) = true ∧
    errB (parse_object ("\x7b\"a\": true, \"b\": oops\x7d".toList)) = true := by
  refine ⟨?_, ?_, rfl, rfl⟩
  · intro i r v h
    have hok : okB (parse_array i) = true := by rw [h]; rfl
    obtain ⟨t, rfl⟩ := arrayBody_ok_head _ _ hok
    unfold parse_array arrayBody at h
    rw [tagP_cons_self '[' t] at h
    cases hs : sepList0 arrSep (fun j => parseJsonF (('[' :: t).length) j) t with
    | err e => simp only [hs] at h; exact PResult.noConfusion h
    | fail e => simp only [hs] at h; exact PResult.noConfusion h
    | ok i2 es =>
      simp only [hs] at h
      cases ht : tagP [']'] i2 with
      | err e => simp only [ht] at h; exact PResult.noConfusion h
      | fail e => simp only [ht] at h; exact PResult.noConfusion h
      | ok i3 s3 =>
        simp only [ht] at h
        injection h with ha hb
        subst ha
        subst hb
        have hi2 : i2 = ']' :: i3 := tagP_single_ok ht
        subst hi2
        refine ⟨t, ']' :: i3, es, rfl, hs, rfl, rfl, ?_, ?_⟩
        · rw [arrSep_err_cons ']' i3 (by decide) (by decide)]
          rfl
        · rw [show (('[' :: t).length) = t.length + 1 from by rw [List.length_cons],
            parseJsonF_err_head t.length ']' i3 (by decide) (by decide) (by decide) (by decide)
              (by decide) (by decide) (by decide) (by decide) (by decide) (by decide)
              (by decide) (by decide)]
          rfl
  · intro i r v h
    have hok : okB (parse_object i) = true := by rw [h]; rfl
    obtain ⟨t, rfl⟩ := objectBody_ok_head _ _ hok
    unfold parse_object objectBody at h
    rw [tagP_cons_self '\x7b' t] at h
    cases hs : sepList0 objSep (entryP (fun j => parseJsonF (('\x7b' :: t).length) j)) t with
    | err e => simp only [hs] at h; exact PResult.noConfusion h
    | fail e => simp only [hs] at h; exact PResult.noConfusion h
    | ok i2 es =>
      simp only [hs] at h
      cases ht : tagP ['\x7d'] i2 with
      | err e => simp only [ht] at h; exact PResult.noConfusion h
      | fail e => simp only [ht] at h; exact PResult.noConfusion h
      | ok i3 s3 =>
        simp only [ht] at h
        injection h with ha hb
        subst ha
        subst hb
        have hi2 : i2 = '\x7d' :: i3 := tagP_single_ok ht
        subst hi2
        refine ⟨t, '\x7d' :: i3, es, rfl, hs, rfl, rfl, ?_, ?_⟩
        · rw [objSep_err_cons '\x7d' i3 (by decide)]
          rfl
        · rw [entryP_err_cons _ '\x7d' i3 (by decide) (by decide)]
          rfl

/-- Witness for C8: a successful singleton array parse, instantiating the
no-pending-separator characterization at `[true]`. -/
theorem C8_witness :
    ∃ t i2 es, ("[true]".toList : Input) = '[' :: t ∧
      sepList0 arrSep (fun j => parseJsonF ("[true]".toList : Input).length j) t = .ok i2 es ∧
      JsonNode.array [JsonNode.boolean true] = .array es ∧ i2 = ']' :: ([] : Input) ∧
      errB (arrSep i2) = true ∧
      errB (parseJsonF ("[true]".toList : Input).length i2) = true :=
  C8_no_partial_results.1 ("[true]".toList) [] (.array [.boolean true]) rfl
